import Mathlib

/-!
Verification of the DAB inductor-selection routine
(src/code/DAB_inductor_selection.py) against its specification.

The numeric core is embedded over the reals: the quadratic phase-shift
solver, the power-transfer and resolution formulas, the RMS-current model,
the closed-form inductance bounds, and the control flow of the sizing
routine (infeasibility branch, sweep generation, manual-selection
fallback).
-/

namespace DABInductorSelection

noncomputable section

/-- Global semiconductor parameter from the source: equivalent output
capacitance of a MOSFET in the primary full-bridge, `92e-12 / 10000` F. -/
def Coss_pri : ℝ := 92e-12 / 10000

/-- Global semiconductor parameter: primary on-state resistance, `80e-3` Ω. -/
def Ron_pri : ℝ := 80e-3

/-- Global semiconductor parameter: secondary output capacitance, `260e-12` F. -/
def Coss_sec : ℝ := 260e-12

/-- Global semiconductor parameter: secondary on-state resistance, `21e-3` Ω. -/
def Ron_sec : ℝ := 21e-3

/-- Primary RMS current for a given operating point, from the source
function of the same name, with fixed duty ratios `D1 = D2 = 0.5`. -/
def Irms_prim_phaseShift (phi V1 V2 n fsw L : ℝ) : ℝ :=
  let D1 : ℝ := 0.5
  let D2 : ℝ := 0.5
  let eRMS := (1 - 4 * |phi|) * (1 - 2 * |phi| + 4 * phi ^ 2
      - 3 * (D1 * (1 - D1) + D2 * (1 - D2)))
  1 / (2 * fsw * L) * Real.sqrt (D1 ^ 2 * V1 ^ 2 * (1 - 4 / 3 * D1)
      + D2 ^ 2 * n ^ 2 * V2 ^ 2 * (1 - 4 / 3 * D2) + n * V1 * V2 / 3 * eRMS)

/-- Secondary RMS current as computed at every site in the source:
`I_sec_RMS = I_pri_RMS * n`. -/
def Isec_phaseShift (phi V1 V2 n fsw L : ℝ) : ℝ :=
  Irms_prim_phaseShift phi V1 V2 n fsw L * n

/-- The phase-shift selection step of the source:
`roots = np.roots([-2, 1, cc]); phi = min(np.real(roots))`.
For the quadratic `-2 x^2 + x + cc`, when the discriminant `1 + 8 cc` is
nonnegative the real parts of the roots are `(1 ∓ √(1 + 8 cc))/4`; when it
is negative the roots are a complex-conjugate pair whose common real part
is `-b/(2a) = 1/4`, which is also the value of both expressions below
because `Real.sqrt` of a negative number is `0`.  Hence this definition
computes `min(np.real(roots))` for every `cc`. -/
def solvePhi (cc : ℝ) : ℝ :=
  min ((1 - Real.sqrt (1 + 8 * cc)) / 4) ((1 + Real.sqrt (1 + 8 * cc)) / 4)

/-- The operating-point solve as invoked in the source:
`c = -power * fsw * L / n / V1 / V2` followed by `solvePhi`. -/
def phi_at (P V1 V2 n fsw L : ℝ) : ℝ :=
  solvePhi (-P * fsw * L / n / V1 / V2)

/-- The delivered-power expression of the source (used in the resolution
computations): `n * V1 * V2 * phi * (1 - 2*phi) / fsw / L`. -/
def powerAt (phi V1 V2 n fsw L : ℝ) : ℝ :=
  n * V1 * V2 * phi * (1 - 2 * phi) / fsw / L

/-- The resolution step of the source: delivered-power difference between
`phi` and `phi - phase_shift_min` at the same inductance. -/
def resolutionAt (phi V1 V2 n fsw L dphi : ℝ) : ℝ :=
  n * V1 * V2 * phi * (1 - 2 * phi) / fsw / L
    - n * V1 * V2 * (phi - dphi) * (1 - 2 * (phi - dphi)) / fsw / L

/-- The resolution step with the phase shift re-solved from the operating
point, exactly as in the bound-search loop and the sweep loop of the
source. -/
def resolutionStepOf (P V1 V2 n fsw L dphi : ℝ) : ℝ :=
  resolutionAt (phi_at P V1 V2 n fsw L) V1 V2 n fsw L dphi

/-- Controller resolution from the source: `phase_shift_min = 1 / f_clk / Ts`. -/
def phase_shift_min_of (f_clk Ts : ℝ) : ℝ := 1 / f_clk / Ts

/-- The closed-form ZVS lower-bound estimate from the source:
`Lmin = Coss_pri * (2*Ts*V1 / ((1/n)*Iout_min*Ts + 8*Coss_pri*V1))**2`
with `Ts = 1/fsw`, `P_min = 0.5*P`, `Iout_min = P_min/V2`. -/
def Lmin0_of (P V1 V2 n fsw : ℝ) : ℝ :=
  Coss_pri * (2 * (1 / fsw) * V1
      / ((1 / n) * (0.5 * P / V2) * (1 / fsw) + 8 * Coss_pri * V1)) ^ 2

/-- The closed-form upper bound from the source:
`Lmax = (n * V1 * V2 * 0.25 * (1 - 2*phi_max)) / (P * fsw)` with
`phi_max = 0.25`. -/
def Lmax_of (P V1 V2 n fsw : ℝ) : ℝ :=
  n * V1 * V2 * 0.25 * (1 - 2 * 0.25) / (P * fsw)

/-- Control-flow outcome of `dab_inductor_sizing_phaseShift`: whether the
infeasibility warning fires, and whether the two sweep stages run. -/
structure SizingOutcome where
  Lmax : ℝ
  warnsInfeasible : Prop
  resolutionSweepsRun : Prop
  powerSweepRun : Prop

/-- The branch structure of the sizing routine around the feasibility
check: `Lmax` is computed in closed form; `if Lmax < Lmin` the routine
issues the infeasibility warning and skips the resolution sweeps (`else`
branch) and, later, the power sweep (`if Lmax >= Lmin`). -/
def sizingOutcome (P V1 V2 n fsw Lmin : ℝ) : SizingOutcome :=
  let Lmax := Lmax_of P V1 V2 n fsw
  { Lmax := Lmax
    warnsInfeasible := Lmax < Lmin
    resolutionSweepsRun := ¬ (Lmax < Lmin)
    powerSweepRun := Lmax ≥ Lmin }

/-- Manual-inductance selection step of the sizing routine.  `manual` is
the `Ltot` argument; `interactive` is the parsed interactive input, `none`
when execution is non-interactive (`EOFError`/`KeyboardInterrupt`) or the
supplied text does not parse as a float (`ValueError`).  In both fallback
cases the source sets `Ltot = (Lmin + Lmax) / 2`. -/
def selectLtot (manual interactive : Option ℝ) (Lmin Lmax : ℝ) : ℝ :=
  match manual with
  | some l => l
  | none =>
    match interactive with
    | some l => l
    | none => (Lmin + Lmax) / 2

/-! ### Helper lemmas -/

lemma solvePhi_eq (cc : ℝ) :
    solvePhi cc = (1 - Real.sqrt (1 + 8 * cc)) / 4 := by
  unfold solvePhi
  have h : (1 - Real.sqrt (1 + 8 * cc)) / 4 ≤ (1 + Real.sqrt (1 + 8 * cc)) / 4 := by
    have := Real.sqrt_nonneg (1 + 8 * cc)
    linarith
  exact min_eq_left h

lemma resolutionStepOf_eq (P V1 V2 n fsw L dphi : ℝ) :
    resolutionStepOf P V1 V2 n fsw L dphi
      = n * V1 * V2 / fsw / L
          * (dphi * (Real.sqrt (1 + 8 * (-P * fsw * L / n / V1 / V2)) + 2 * dphi)) := by
  unfold resolutionStepOf resolutionAt phi_at
  rw [solvePhi_eq]
  ring

/-! ### Claims -/

/-- Claim C1: for every positive `P, V1, V2, n, fsw, L` such that the
discriminant of the quadratic `-2φ² + φ - (P·fsw·L)/(n·V1·V2) = 0` is
nonnegative, the phase shift selected by the operating-point solver
satisfies the power-transfer equation: substituting the returned `φ` back
into the power formula recovers the original `P`. -/
theorem phi_roundtrip_power (P V1 V2 n fsw L : ℝ)
    (hP : 0 < P) (h1 : 0 < V1) (h2 : 0 < V2) (hn : 0 < n) (hf : 0 < fsw)
    (hL : 0 < L) (hdisc : 0 ≤ 1 - 8 * (P * fsw * L) / (n * V1 * V2)) :
    powerAt (phi_at P V1 V2 n fsw L) V1 V2 n fsw L = P := by
  have harg : 1 + 8 * (-P * fsw * L / n / V1 / V2)
      = 1 - 8 * (P * fsw * L) / (n * V1 * V2) := by ring
  have hs2 : (Real.sqrt (1 + 8 * (-P * fsw * L / n / V1 / V2))) ^ 2
      = 1 - 8 * (P * fsw * L) / (n * V1 * V2) := by
    rw [Real.sq_sqrt (by rw [harg]; exact hdisc)]
    exact harg
  unfold powerAt phi_at
  rw [solvePhi_eq]
  set s := Real.sqrt (1 + 8 * (-P * fsw * L / n / V1 / V2)) with hsdef
  have key : ((1 - s) / 4) * (1 - 2 * ((1 - s) / 4))
      = P * fsw * L / (n * V1 * V2) := by
    linear_combination (-1/8 : ℝ) * hs2
  have hn0 : n ≠ 0 := hn.ne'
  have h10 : V1 ≠ 0 := h1.ne'
  have h20 : V2 ≠ 0 := h2.ne'
  have hf0 : fsw ≠ 0 := hf.ne'
  have hL0 : L ≠ 0 := hL.ne'
  have expand : n * V1 * V2 * ((1 - s) / 4) * (1 - 2 * ((1 - s) / 4)) / fsw / L
      = n * V1 * V2 * (((1 - s) / 4) * (1 - 2 * ((1 - s) / 4))) / fsw / L := by
    ring
  rw [expand, key]
  field_simp
  ring

/-- Claim C1 witness: concrete instance with `P = 3/32`, all other
parameters `1`, where the discriminant is `1/4 ≥ 0`. -/
theorem phi_roundtrip_power_witness :
    (0:ℝ) ≤ 1 - 8 * ((3/32 : ℝ) * 1 * 1) / (1 * 1 * 1)
      ∧ powerAt (phi_at (3/32) 1 1 1 1 1) 1 1 1 1 1 = 3/32 :=
  ⟨by norm_num,
   phi_roundtrip_power (3/32) 1 1 1 1 1 (by norm_num) (by norm_num)
     (by norm_num) (by norm_num) (by norm_num) (by norm_num) (by norm_num)⟩

/-- Claim C2 counterexample: the claim says that on a negative discriminant
the solver reports an error rather than returning a value derived from the
complex roots.  In fact, at `P = V1 = V2 = n = fsw = L = 1` (so
`P·fsw·L/(n·V1·V2) = 1 > 1/8`, discriminant `-7 < 0`) the solve step is a
total function that returns `φ = 0.25`, the common real part of the
complex-conjugate roots. -/
theorem negative_disc_returns_value :
    (1 : ℝ) * 1 * 1 / (1 * 1 * 1) > 1 / 8 ∧ phi_at 1 1 1 1 1 1 = 0.25 := by
  constructor
  · norm_num
  · unfold phi_at
    rw [solvePhi_eq]
    rw [show (1:ℝ) + 8 * (-1 * 1 * 1 / 1 / 1 / 1) = -7 by norm_num]
    rw [Real.sqrt_eq_zero'.mpr (by norm_num : (-7:ℝ) ≤ 0)]
    norm_num

/-- Claim C2 (amended): when the discriminant of the phase-shift quadratic
is negative (`P·fsw·L/(n·V1·V2) > 1/8`), the operating-point solver does
not report an error; taking the minimum of the real parts of the
complex-conjugate roots, it silently returns `φ = 0.25`, the maximum phase
shift. -/
theorem negative_disc_silent_clamp (P V1 V2 n fsw L : ℝ)
    (hinfeas : P * fsw * L / (n * V1 * V2) > 1 / 8) :
    phi_at P V1 V2 n fsw L = 0.25 := by
  unfold phi_at
  rw [solvePhi_eq]
  have harg : 1 + 8 * (-P * fsw * L / n / V1 / V2)
      = 1 - 8 * (P * fsw * L / (n * V1 * V2)) := by ring
  have hneg : 1 + 8 * (-P * fsw * L / n / V1 / V2) ≤ 0 := by
    rw [harg]; linarith
  rw [Real.sqrt_eq_zero'.mpr hneg]
  norm_num

/-- Claim C2 (amended) witness: concrete infeasible input with `L = 2`. -/
theorem negative_disc_silent_clamp_witness :
    (1:ℝ) * 1 * 2 / (1 * 1 * 1) > 1 / 8 ∧ phi_at 1 1 1 1 1 2 = 0.25 :=
  ⟨by norm_num, negative_disc_silent_clamp 1 1 1 1 1 2 (by norm_num)⟩

/-- Claim C3: whenever the computed `Lmax` is strictly smaller than the
computed `Lmin`, the sizing routine takes the infeasibility-warning branch
and generates neither the loss-vs-resolution sweeps nor the loss-vs-power
sweep. -/
theorem infeasible_skips_sweeps (P V1 V2 n fsw Lmin : ℝ)
    (h : (sizingOutcome P V1 V2 n fsw Lmin).Lmax < Lmin) :
    (sizingOutcome P V1 V2 n fsw Lmin).warnsInfeasible
      ∧ ¬ (sizingOutcome P V1 V2 n fsw Lmin).resolutionSweepsRun
      ∧ ¬ (sizingOutcome P V1 V2 n fsw Lmin).powerSweepRun := by
  dsimp only [sizingOutcome] at h ⊢
  exact ⟨h, not_not_intro h, not_le.mpr h⟩

/-- Claim C3 witness: with all parameters `1`, `Lmax = 0.125 < 1 = Lmin`. -/
theorem infeasible_skips_sweeps_witness :
    (sizingOutcome 1 1 1 1 1 1).Lmax < 1
      ∧ ((sizingOutcome 1 1 1 1 1 1).warnsInfeasible
        ∧ ¬ (sizingOutcome 1 1 1 1 1 1).resolutionSweepsRun
        ∧ ¬ (sizingOutcome 1 1 1 1 1 1).powerSweepRun) :=
  ⟨by norm_num [sizingOutcome, Lmax_of],
   infeasible_skips_sweeps 1 1 1 1 1 1 (by norm_num [sizingOutcome, Lmax_of])⟩

/-- Claim C4: for fixed operating power and fixed `V1, V2, n, fsw` and
minimum phase-shift increment, a larger inductance never yields a larger
resolution step (with the phase shift re-solved at each inductance): the
resolution step is weakly decreasing in `L`. -/
theorem resolution_step_antitone (P V1 V2 n fsw dphi L1 L2 : ℝ)
    (hP : 0 < P) (h1 : 0 < V1) (h2 : 0 < V2) (hn : 0 < n) (hf : 0 < fsw)
    (hd : 0 ≤ dphi) (hL1 : 0 < L1) (hL12 : L1 ≤ L2) :
    resolutionStepOf P V1 V2 n fsw L2 dphi
      ≤ resolutionStepOf P V1 V2 n fsw L1 dphi := by
  rw [resolutionStepOf_eq, resolutionStepOf_eq]
  have hL2 : 0 < L2 := lt_of_lt_of_le hL1 hL12
  set s1 := Real.sqrt (1 + 8 * (-P * fsw * L1 / n / V1 / V2)) with hs1def
  set s2 := Real.sqrt (1 + 8 * (-P * fsw * L2 / n / V1 / V2)) with hs2def
  have hs2nn : 0 ≤ s2 := hs2def ▸ Real.sqrt_nonneg _
  have hs21 : s2 ≤ s1 := by
    rw [hs1def, hs2def]
    apply Real.sqrt_le_sqrt
    have hden : 0 < n * V1 * V2 := by positivity
    have hnum : P * fsw * L1 ≤ P * fsw * L2 := by
      nlinarith [mul_nonneg (mul_nonneg hP.le hf.le) (sub_nonneg.mpr hL12)]
    have hdiv : P * fsw * L1 / (n * V1 * V2) ≤ P * fsw * L2 / (n * V1 * V2) :=
      (div_le_div_iff_of_pos_right hden).mpr hnum
    have e1 : -P * fsw * L1 / n / V1 / V2
        = -(P * fsw * L1 / (n * V1 * V2)) := by ring
    have e2 : -P * fsw * L2 / n / V1 / V2
        = -(P * fsw * L2 / (n * V1 * V2)) := by ring
    rw [e1, e2]
    linarith
  have hfac : n * V1 * V2 / fsw / L2 ≤ n * V1 * V2 / fsw / L1 := by
    have hK : 0 < n * V1 * V2 / fsw := by positivity
    exact div_le_div_of_nonneg_left hK.le hL1 hL12
  have hstep : dphi * (s2 + 2 * dphi) ≤ dphi * (s1 + 2 * dphi) :=
    mul_le_mul_of_nonneg_left (by linarith) hd
  have hX2 : 0 ≤ dphi * (s2 + 2 * dphi) := mul_nonneg hd (by linarith)
  have hb : 0 ≤ n * V1 * V2 / fsw / L1 := by positivity
  exact mul_le_mul hfac hstep hX2 hb

/-- Claim C4 witness: concrete instance with `L1 = 1 ≤ 2 = L2` and all
other parameters `1`. -/
theorem resolution_step_antitone_witness :
    ((0:ℝ) < 1 ∧ (0:ℝ) ≤ 1 ∧ (1:ℝ) ≤ 2)
      ∧ resolutionStepOf 1 1 1 1 1 2 1 ≤ resolutionStepOf 1 1 1 1 1 1 1 :=
  ⟨⟨by norm_num, by norm_num, by norm_num⟩,
   resolution_step_antitone 1 1 1 1 1 1 1 2 (by norm_num) (by norm_num)
     (by norm_num) (by norm_num) (by norm_num) (by norm_num) (by norm_num)
     (by norm_num)⟩

/-- Claim C5: the closed-form upper bound
`Lmax = n·V1·V2·0.25·(1 − 2·0.25)/(P·fsw)` is consistent with the general
power-transfer equation: evaluating the power formula at `φ = 0.25` and
`L = Lmax` yields exactly the rated power `P`. -/
theorem Lmax_closed_form_consistent (P V1 V2 n fsw : ℝ)
    (hP : 0 < P) (h1 : 0 < V1) (h2 : 0 < V2) (hn : 0 < n) (hf : 0 < fsw) :
    powerAt 0.25 V1 V2 n fsw (Lmax_of P V1 V2 n fsw) = P := by
  unfold powerAt Lmax_of
  have hn0 : n ≠ 0 := hn.ne'
  have h10 : V1 ≠ 0 := h1.ne'
  have h20 : V2 ≠ 0 := h2.ne'
  have hf0 : fsw ≠ 0 := hf.ne'
  have hP0 : P ≠ 0 := hP.ne'
  rw [show (0.25 : ℝ) = 1/4 by norm_num]
  field_simp
  ring

/-- Claim C5 witness: all parameters `1`. -/
theorem Lmax_closed_form_consistent_witness :
    (0:ℝ) < 1 ∧ powerAt 0.25 1 1 1 1 (Lmax_of 1 1 1 1 1) = 1 :=
  ⟨by norm_num,
   Lmax_closed_form_consistent 1 1 1 1 1 (by norm_num) (by norm_num)
     (by norm_num) (by norm_num) (by norm_num)⟩

/-- Claim C6: when the phase-shift quadratic `-2x² + x + cc` has real roots
(nonnegative discriminant `1 + 8·cc`), the value selected by the solver is
itself a root and is less than or equal to every real root: the solver
selects the smaller root, never the larger one. -/
theorem solver_selects_smaller_root (cc x : ℝ)
    (hdisc : 0 ≤ 1 + 8 * cc) (hroot : -2 * x ^ 2 + 1 * x + cc = 0) :
    -2 * (solvePhi cc) ^ 2 + 1 * (solvePhi cc) + cc = 0 ∧ solvePhi cc ≤ x := by
  rw [solvePhi_eq]
  set s := Real.sqrt (1 + 8 * cc) with hsdef
  have hs0 : 0 ≤ s := hsdef ▸ Real.sqrt_nonneg _
  have hs2 : s ^ 2 = 1 + 8 * cc := hsdef ▸ Real.sq_sqrt hdisc
  constructor
  · linear_combination (-1/8 : ℝ) * hs2
  · have hx : (4 * x - 1) ^ 2 = s ^ 2 := by
      linear_combination (-8 : ℝ) * hroot - hs2
    rcases sq_eq_sq_iff_eq_or_eq_neg.mp hx with h | h
    · linarith
    · linarith

/-- Claim C6 witness: `cc = -3/32` (discriminant `1/4`), tested against the
larger root `x = 3/8`. -/
theorem solver_selects_smaller_root_witness :
    ((0:ℝ) ≤ 1 + 8 * (-3/32 : ℝ)
      ∧ -2 * ((3:ℝ)/8) ^ 2 + 1 * ((3:ℝ)/8) + (-3/32) = 0)
      ∧ (-2 * (solvePhi (-3/32)) ^ 2 + 1 * (solvePhi (-3/32)) + (-3/32) = 0
        ∧ solvePhi (-3/32) ≤ 3/8) :=
  ⟨⟨by norm_num, by norm_num⟩,
   solver_selects_smaller_root (-3/32) (3/8) (by norm_num) (by norm_num)⟩

/-- Helper: the resolution step is bounded above by
`(n·V1·V2/fsw)·Δφ·(1 + 2·Δφ) / L`, because the square-root factor in its
closed form is at most `1` for positive inputs. -/
lemma resolutionStepOf_le_div (P V1 V2 n fsw L dphi : ℝ)
    (hP : 0 < P) (h1 : 0 < V1) (h2 : 0 < V2) (hn : 0 < n) (hf : 0 < fsw)
    (hL : 0 < L) (hd : 0 ≤ dphi) :
    resolutionStepOf P V1 V2 n fsw L dphi
      ≤ n * V1 * V2 / fsw * (dphi * (1 + 2 * dphi)) / L := by
  rw [resolutionStepOf_eq]
  have hpos : 0 < P * fsw * L / n / V1 / V2 := by positivity
  have hs1 : Real.sqrt (1 + 8 * (-P * fsw * L / n / V1 / V2)) ≤ 1 := by
    rw [Real.sqrt_le_one]
    have e : -P * fsw * L / n / V1 / V2 = -(P * fsw * L / n / V1 / V2) := by
      ring
    rw [e]
    linarith
  have hKL : 0 ≤ n * V1 * V2 / fsw / L := by positivity
  have hstep : dphi * (Real.sqrt (1 + 8 * (-P * fsw * L / n / V1 / V2)) + 2 * dphi)
      ≤ dphi * (1 + 2 * dphi) :=
    mul_le_mul_of_nonneg_left (by linarith) hd
  calc n * V1 * V2 / fsw / L
        * (dphi * (Real.sqrt (1 + 8 * (-P * fsw * L / n / V1 / V2)) + 2 * dphi))
      ≤ n * V1 * V2 / fsw / L * (dphi * (1 + 2 * dphi)) :=
        mul_le_mul_of_nonneg_left hstep hKL
    _ = n * V1 * V2 / fsw * (dphi * (1 + 2 * dphi)) / L := by ring

/-- Claim C7: the resolution-driven lower-bound search — starting from the
closed-form ZVS estimate and multiplying the candidate inductance by
`1.0001` while the resolution step exceeds the allowed threshold
`resolution_percentage · P` — terminates: for every positive input there is
a finite iteration count after which the loop guard fails.  The loop
operates at `P_min = 0.5·P` with `phase_shift_min = 1/f_clk/Ts`,
`Ts = 1/fsw`. -/
theorem lower_bound_search_terminates (P V1 V2 n fsw f_clk rp : ℝ)
    (hP : 0 < P) (h1 : 0 < V1) (h2 : 0 < V2) (hn : 0 < n) (hf : 0 < fsw)
    (hclk : 0 < f_clk) (hrp : 0 < rp) :
    ∃ k : ℕ, resolutionStepOf (0.5 * P) V1 V2 n fsw
        (Lmin0_of P V1 V2 n fsw * 1.0001 ^ k)
        (phase_shift_min_of f_clk (1 / fsw)) ≤ rp * P := by
  have hL0 : 0 < Lmin0_of P V1 V2 n fsw := by
    unfold Lmin0_of Coss_pri
    positivity
  have hdphi : 0 < phase_shift_min_of f_clk (1 / fsw) := by
    unfold phase_shift_min_of
    positivity
  set L0 := Lmin0_of P V1 V2 n fsw
  set dphi := phase_shift_min_of f_clk (1 / fsw)
  set B := n * V1 * V2 / fsw * (dphi * (1 + 2 * dphi)) with hBdef
  have hB : 0 < B := by rw [hBdef]; positivity
  obtain ⟨k, hk⟩ := pow_unbounded_of_one_lt (B / (rp * P * L0))
    (by norm_num : (1:ℝ) < 1.0001)
  refine ⟨k, ?_⟩
  have hq : (0:ℝ) < 1.0001 ^ k := by positivity
  have hLk : 0 < L0 * 1.0001 ^ k := mul_pos hL0 hq
  have hbound := resolutionStepOf_le_div (0.5 * P) V1 V2 n fsw
    (L0 * 1.0001 ^ k) dphi (by linarith) h1 h2 hn hf hLk hdphi.le
  have hfin : B / (L0 * 1.0001 ^ k) ≤ rp * P := by
    rw [div_le_iff₀ hLk]
    have hmul := (div_lt_iff₀ (by positivity : (0:ℝ) < rp * P * L0)).mp hk
    nlinarith [hmul]
  calc resolutionStepOf (0.5 * P) V1 V2 n fsw (L0 * 1.0001 ^ k) dphi
      ≤ B / (L0 * 1.0001 ^ k) := hbound
    _ ≤ rp * P := hfin

/-- Claim C7 witness: the documented default scenario `P = 1000` W,
`V1 = 720` V, `V2 = 40` V, `n = 15`, `fsw = 100` kHz, `f_clk = 250` MHz,
`resolution_percentage = 0.025`. -/
theorem lower_bound_search_terminates_witness :
    ∃ k : ℕ, resolutionStepOf (0.5 * 1000) 720 40 15 100000
        (Lmin0_of 1000 720 40 15 100000 * 1.0001 ^ k)
        (phase_shift_min_of 250000000 (1 / 100000)) ≤ 0.025 * 1000 :=
  lower_bound_search_terminates 1000 720 40 15 100000 250000000 0.025
    (by norm_num) (by norm_num) (by norm_num) (by norm_num) (by norm_num)
    (by norm_num) (by norm_num)

/-- Claim C8: the secondary-side RMS current equals exactly `n` times the
primary-side RMS current, for every phase shift and every choice of
circuit parameters, as at every site where it is computed. -/
theorem secondary_rms_turns_ratio (phi V1 V2 n fsw L : ℝ) :
    Isec_phaseShift phi V1 V2 n fsw L
      = n * Irms_prim_phaseShift phi V1 V2 n fsw L := by
  unfold Isec_phaseShift
  exact mul_comm _ _

/-- Claim C9: when no manual inductance is supplied and no interactive
input is available (non-interactive execution or unparseable text), the
routine falls back to the arithmetic midpoint of the computed feasible
range. -/
theorem midpoint_fallback (Lmin Lmax : ℝ) :
    selectLtot none none Lmin Lmax = (Lmin + Lmax) / 2 := rfl

/-- Claim C10: whenever the phase-shift quadratic `-2φ² + φ + cc` has a
negative discriminant `1 + 8·cc < 0`, the select-minimum-of-real-parts
step yields exactly `φ = 0.25`, the common real part of the
complex-conjugate root pair, so downstream formulas are silently evaluated
at the maximum phase shift instead of failing. -/
theorem complex_roots_real_part_quarter (cc : ℝ) (h : 1 + 8 * cc < 0) :
    solvePhi cc = 0.25 := by
  rw [solvePhi_eq, Real.sqrt_eq_zero'.mpr h.le]
  norm_num

/-- Claim C10 witness: `cc = -1` has discriminant `-7 < 0`. -/
theorem complex_roots_real_part_quarter_witness :
    (1:ℝ) + 8 * (-1) < 0 ∧ solvePhi (-1) = 0.25 :=
  ⟨by norm_num, complex_roots_real_part_quarter (-1) (by norm_num)⟩

end

end DABInductorSelection
